import Mathlib

/-!
# WealtPulse market-rate / portfolio core: verification of the specification

Shallow embedding, in Lean 4, of the parts of the WealtPulse backend that the
frozen claims are about, together with theorems settling each claim.

Conventions of the embedding:
* Python `Decimal` / `float` finite values are modelled as `ℚ` (exact rational
  arithmetic; `Decimal` quantization to 8 decimal places and IEEE rounding are
  not modelled — no claim depends on rounding).
* Non-finite float/Decimal values (`nan`, `inf`, `-inf`) are modelled by the
  explicit sum type `PyFloat`, since the persistence write boundary inspects
  them.
* `datetime.date` values are modelled as integer day ordinals (`ℤ`);
  `datetime.datetime` values as a day ordinal paired with a seconds-of-day
  component, or as a single integer timestamp where only ordering and
  bucketing matter.
* Python dicts appear either as association lists (`List (κ × ν)`, first
  binding wins on lookup, which matches insertion-then-overwrite order when
  noted) or as total functions updated pointwise.
* Database sessions are modelled by explicit state passing: a table is a
  `List` of row structures, and an operation returns the new table.
-/

namespace WealtPulse

/-- A Python float/Decimal value as it flows through the market-data layer:
either a finite value (as an exact rational) or one of the non-finite
sentinels `nan`, `inf`, `-inf` that `math.isnan` / `math.isinf` detect. -/
inductive PyFloat where
  | nan : PyFloat
  | inf : PyFloat
  | ninf : PyFloat
  | val : ℚ → PyFloat
  deriving DecidableEq, Repr

/-- `math_utils.sanitize_decimal` restricted to the fields the embedding
uses: `None`/NaN/±Inf become `0`, finite values pass through (the 8-decimal
quantization of exact inputs is not modelled). -/
def sanitizeDecimal : PyFloat → ℚ
  | .val q => q
  | _ => 0

/-! ### Python string primitives

Lean core's `String.endsWith` / `String.replace` are compiled primitives that
the kernel cannot evaluate, so the Python string operations the source uses
are re-expressed over the underlying character list (`String.data`), with the
same semantics. -/

/-- Python `str.endswith(suffix)`. -/
def strEndsWith (s suffix : String) : Bool :=
  suffix.data.isSuffixOf s.data

/-- Python `c in s` for a single character. -/
def strContainsChar (s : String) (c : Char) : Bool :=
  s.data.contains c

/-- Python `str.upper()` (ASCII suffices for the symbols involved). -/
def strToUpper (s : String) : String :=
  ⟨s.data.map Char.toUpper⟩

/-- Left-to-right, non-overlapping replacement of `pat` by `repl`, the
semantics of Python `str.replace` for a non-empty pattern. The fuel argument
is initialized to the string length, which bounds the number of steps. -/
def replaceAux (pat repl : List Char) : ℕ → List Char → List Char
  | 0, s => s
  | _ + 1, [] => []
  | fuel + 1, c :: rest =>
    if pat ≠ [] ∧ pat.isPrefixOf (c :: rest) then
      repl ++ replaceAux pat repl fuel ((c :: rest).drop pat.length)
    else
      c :: replaceAux pat repl fuel rest

/-- Python `s.replace(pat, repl)` (for the non-empty patterns the source
uses). -/
def strReplace (s pat repl : String) : String :=
  ⟨replaceAux pat.data repl.data s.data.length s.data⟩

/-! ## TickerResolver — `services/market/config.py`, `MarketDataConfig` -/

/-- `MarketDataConfig.CRYPTO_SET` (config.py lines 33-49). -/
def CRYPTO_SET : List String :=
  ["BTC", "ETH", "SOL", "ADA", "DOT", "DOGE", "SHIB", "LINK", "UNI",
   "MATIC", "NEXO", "USDT", "CRO", "LTC", "XRP"]

/-- `MarketDataConfig.resolve_ticker` (config.py lines 51-77).
`not currency` is Python falsiness of a string, i.e. the empty string; the
`isinstance` guard is vacuous in the typed embedding; the final `"-" in
currency` special case in the source is a `pass` (no effect) and is omitted. -/
def resolve_ticker (currency : String) : Option String :=
  if currency = "" ∨ strToUpper currency ∈ ["USD", "UNKNOWN", "-", ""] then
    none
  else if strEndsWith currency "-USD" ∨ strEndsWith currency "=X" then
    some currency
  else if strContainsChar currency '.' then
    some currency
  else if currency ∈ CRYPTO_SET then
    some (currency ++ "-USD")
  else if currency.data.length = 3 then
    some (currency ++ "USD=X")
  else
    some (currency ++ "-USD")

/-! ## PerformanceCalculator.calculate_twr — `services/portfolio/performance.py` -/

/-- `PerformanceCalculator.calculate_twr` (performance.py lines 7-37).
Both arms of the `start_value == 0` branch return `0`, and the source has an
additional guard returning `0` when `start_value + net_flow == 0`. -/
def calculate_twr (start_value end_value net_flow : ℚ) : ℚ :=
  if start_value = 0 then 0
  else if start_value + net_flow = 0 then 0
  else (end_value - net_flow) / start_value - 1

/-! ## XIRR — `math_utils.py` and `PerformanceCalculator.calculate_mwr`

`xirr` is annotated `List[Tuple[date, float]]` but is dynamically typed, and
its only caller (`calculate_mwr`) passes `(amount, date)` tuples. To capture
what actually happens at run time, tuple components are embedded as the
dynamic value type `PyV`; operations that would raise a Python `TypeError` /
`AttributeError` on a wrongly-typed operand return `Except.error ()`, which
propagates exactly like the exception does (the caller's blanket
`except Exception` is the only handler). -/

/-- A dynamically-typed Python value inside an xirr cash-flow tuple: a number
(float/int) or a `datetime.date`. -/
inductive PyV where
  | num : ℚ → PyV
  | date : ℤ → PyV
  deriving DecidableEq, Repr

/-- Python `x > 0`: comparing a `datetime.date` with an `int` raises
`TypeError`. -/
def pyGtZero : PyV → Except Unit Bool
  | .num q => .ok (0 < q)
  | .date _ => .error ()

/-- Python `x < 0`, same dynamic semantics. -/
def pyLtZero : PyV → Except Unit Bool
  | .num q => .ok (q < 0)
  | .date _ => .error ()

/-- The flag-accumulating sign scan of `xirr` (math_utils.py lines 75-81):
each element's amount is compared with `0` twice; the first date-valued
amount raises. -/
def signScan : List (PyV × PyV) → Except Unit (Bool × Bool)
  | [] => .ok (false, false)
  | p :: rest => do
    let pos ← pyGtZero p.2
    let neg ← pyLtZero p.2
    let (prest, nrest) ← signScan rest
    .ok (pos || prest, neg || nrest)

/-- Extraction of a well-typed `(date, amount)` pair; a wrongly-typed
component raises (in the source, inside `sort` / `(d - start_date).days` /
the float arithmetic — all the same blanket handler). -/
def asTyped : PyV × PyV → Except Unit (ℤ × ℚ)
  | (.date d, .num q) => .ok (d, q)
  | _ => .error ()

/-- `math.pow b e` in the rational embedding: exact at integer exponents.
For a non-integral exponent the true value is irrational and outside `ℚ`;
the placeholder `0` is never reached by any claim theorem (they evaluate the
Newton iteration only on day offsets that are multiples of 365, or not at
all). -/
def qpow (b : ℚ) (e : ℚ) : ℚ :=
  if e.den = 1 then b ^ e.num else 0

/-- `total_present_value` (math_utils.py lines 91-98) on the region
`rate > -1` where it is finite: `Σ amount / (1+rate)^(days/365)`. -/
def total_present_value (flows : List (ℤ × ℚ)) (start : ℤ) (rate : ℚ) : ℚ :=
  (flows.map (fun f => f.2 / qpow (1 + rate) (((f.1 - start : ℤ) : ℚ) / 365))).sum

/-- `total_present_value_derivative` (math_utils.py lines 100-107) on the
same region. -/
def total_present_value_derivative (flows : List (ℤ × ℚ)) (start : ℤ) (rate : ℚ) : ℚ :=
  (flows.map (fun f =>
    -f.2 * (((f.1 - start : ℤ) : ℚ) / 365) /
      qpow (1 + rate) (((f.1 - start : ℤ) : ℚ) / 365 + 1))).sum

/-- The Newton-Raphson loop of `xirr` (math_utils.py lines 109-129), fuel =
50 iterations. An iterate `rate ≤ -1` makes both NPV and derivative
`float("inf")` in the source; from then on every convergence test is `False`
(inf/NaN comparisons) and the loop burns its remaining iterations and
returns `None` — modelled by returning `none` directly at that point. -/
def xirrLoop (flows : List (ℤ × ℚ)) (start : ℤ) : ℚ → ℕ → Option ℚ
  | _, 0 => none
  | rate, fuel + 1 =>
    if rate ≤ -1 then none
    else
      let f := total_present_value flows start rate
      let df := total_present_value_derivative flows start rate
      if |f| < 1 / 1000000 then some rate
      else if df = 0 then none
      else
        let newRate := rate - f / df
        if |newRate - rate| < 1 / 1000000 then some newRate
        else xirrLoop flows start newRate fuel

/-- `math_utils.xirr` (lines 59-129) over dynamic tuples. The source sorts
the raw tuples by first component and then consumes them typed; the
embedding extracts the typed pairs first and then sorts (stable, same key),
which is observably identical: any wrongly-typed component raises into the
same blanket handler either way. The `[]` arm of the final match is
unreachable (the list was checked non-empty). -/
def xirr (cash_flows : List (PyV × PyV)) (guess : ℚ) : Except Unit (Option ℚ) :=
  if cash_flows.isEmpty then .ok none
  else do
    let (positive, negative) ← signScan cash_flows
    if ¬(positive ∧ negative) then .ok none
    else do
      let typed ← cash_flows.mapM asTyped
      let sorted := List.insertionSort (fun a b => a.1 ≤ b.1) typed
      match sorted with
      | [] => .ok none
      | s0 :: _ => .ok (xirrLoop sorted s0.1 guess 50)

/-- `PerformanceCalculator.calculate_mwr` (performance.py lines 39-88).
`flows` is the list of `{date, amount}` dicts as `(date, amount)` pairs. The
source builds each cash-flow tuple as `(amount, date)` — amount first — and
hands the list to `xirr`, whose declared element type is `(date, amount)`;
the blanket `except Exception` maps any raise (and, via the explicit
`if res is not None else` expression, also a `None` result) to
`Decimal("0.0")`. -/
def calculate_mwr (start_value end_value : ℚ) (flows : List (ℤ × ℚ))
    (start_date end_date : ℤ) : ℚ :=
  let cfs : List (PyV × PyV) :=
    (PyV.num (-start_value), PyV.date start_date)
      :: (flows.map (fun f => (PyV.num (-f.2), PyV.date f.1))
          ++ [(PyV.num end_value, PyV.date end_date)])
  match xirr cfs (1 / 10) with
  | .ok (some r) => r
  | .ok none => 0
  | .error _ => 0

/-! ## RateStore persistence — `services/market/persistence.py`

The `exchange_rate_history` table is a `List HRow`; a write operation
returns the new table contents. A batch record dict
`{"currency", "rate", "timestamp"}` has the same fields as a row, so the
same structure is used for both (`float(r["rate"])` is the identity in the
rational embedding). -/

/-- One `ExchangeRateHistory` row / one batch record. -/
structure HRow where
  currency : String
  rate : PyFloat
  ts : ℤ
  deriving DecidableEq, Repr

/-- The validation block of `save_rates` (persistence.py lines 26-42):
a rate is invalid when it is `None`, NaN, ±infinite, or `≤ 0` (the `Decimal`
and `float` branches of the source test the same conditions). -/
def isInvalidRate : Option PyFloat → Bool
  | none => true
  | some .nan => true
  | some .inf => true
  | some .ninf => true
  | some (.val q) => decide (q ≤ 0)

/-- `MarketDataPersistence.save_rates` (persistence.py lines 17-54), returned
as the list of rows added to the table: USD and invalid rates are skipped,
everything else is inserted at the given timestamp. -/
def save_rates (rates : List (String × Option PyFloat)) (timestamp : ℤ) : List HRow :=
  rates.filterMap (fun cr =>
    if cr.1 = "USD" then none
    else if isInvalidRate cr.2 then none
    else cr.2.map (fun r => ⟨cr.1, r, timestamp⟩))

/-- `(currency, timestamp)` key of a row/record. -/
def rowKey (r : HRow) : String × ℤ := (r.currency, r.ts)

/-- Whether the table already holds a row with the given key. -/
def keyIn (st : List HRow) (c : String) (ts : ℤ) : Bool :=
  st.any (fun row => row.currency = c ∧ row.ts = ts)

/-- Whether a batch contains two records with the same `(currency,
timestamp)` key — the only way the bulk insert of the sequential model can
hit the table's uniqueness constraint (concurrent writers are outside the
model). -/
def hasDupKeys (l : List HRow) : Bool :=
  ¬ (l.map rowKey).Nodup

/-- The row-by-row fallback of `save_history_batch` (persistence.py lines
162-191): a fresh session over the original table (the failed bulk commit,
deletes included, rolled back), inserting each record unless its key already
collides, swallowing individual conflicts. -/
def rowByRow (st : List HRow) : List HRow → List HRow
  | [] => st
  | r :: rest =>
    if keyIn st r.currency r.ts then rowByRow st rest
    else rowByRow (st ++ [r]) rest

/-- `MarketDataPersistence.save_history_batch` (persistence.py lines 56-194).
In `upsert` mode, rows colliding with any batch key are deleted and the whole
batch inserted (the source deletes, per currency, the rows whose timestamp is
in that currency's batch-timestamp set — which is exactly "collides with some
record", since each record's timestamp lies in its own currency's set). In
insert mode, the source pre-queries existing `(currency, timestamp)` keys
over each currency's `[min, max]` batch range and filters the batch by
membership; as every record's timestamp lies within its own currency's
range, a record is filtered out exactly when its key is already in the
table. No rate validation happens in either mode. -/
def save_history_batch (st : List HRow) (records : List HRow) (upsert : Bool) : List HRow :=
  if records.isEmpty then st
  else
    let toAdd := if upsert then records
                 else records.filter (fun r => ¬ keyIn st r.currency r.ts)
    let base := if upsert then
                  st.filter (fun row =>
                    ¬ records.any (fun r => r.currency = row.currency ∧ r.ts = row.ts))
                else st
    if hasDupKeys toAdd then rowByRow st records else base ++ toAdd

/-! ## BackfillCoordinator persistence — `agents/history_backfill.py` -/

/-- The record flattening of `HistoryBackfillAgent._persist_history`
(history_backfill.py lines 240-251): one record per non-USD currency per
series timestamp. -/
def flattenSeries (series : List (ℤ × List (String × ℚ))) : List HRow :=
  series.flatMap (fun dr =>
    dr.2.filterMap (fun cr =>
      if cr.1 = "USD" then none else some ⟨cr.1, PyFloat.val cr.2, dr.1⟩))

/-- `HistoryBackfillAgent._persist_history` (lines 234-273): the fetched
series is flattened and handed to `save_history_batch` with
`upsert := force` — the run's `force` flag (default `False`), not a constant
`True`. -/
def persist_history (st : List HRow) (series : List (ℤ × List (String × ℚ)))
    (force : Bool) : List HRow :=
  save_history_batch st (flattenSeries series) force

/-! ## ValuationEngine — `services/portfolio/valuation.py`

The rate map handed to the valuation can hold `None` values (the source
checks `rates[symbol] is not None`), so it is embedded as an association
list `List (String × Option ℚ)`; a Python dict has unique keys, matching
first-binding-wins lookup. -/

/-- The fields of `models.Asset` the valuation reads. `ticker_symbol` and
`purchase_price` are nullable; `currency` may be null or empty (the source
guards both with `or`). -/
structure PAsset where
  id : ℕ
  ticker_symbol : Option String
  purchase_price : Option ℚ
  currency : Option String
  deriving DecidableEq, Repr

/-- Python truthiness of `asset.ticker_symbol` (`None` and `""` are falsy). -/
def tickerTruthy : Option String → Bool
  | none => false
  | some s => s ≠ ""

/-- Python `asset.currency or "USD"`. -/
def orUSD : Option String → String
  | none => "USD"
  | some s => if s = "" then "USD" else s

/-- The alternatives loop of `ValuationService._get_rate_safe`
(valuation.py lines 130-141): first symbol variant having a non-`None`
binding. -/
def firstHit (rates : List (String × Option ℚ)) : List String → Option ℚ
  | [] => none
  | a :: rest =>
    match rates.lookup a with
    | some (some v) => some v
    | _ => firstHit rates rest

/-- `ValuationService._get_rate_safe` (valuation.py lines 115-143): empty
symbol → default; direct non-`None` hit → it; otherwise the first hit among
the suffix-alias variants; otherwise the default. The caller-supplied
default is `Decimal("1.0")` except for the ticker lookup which passes
`default=None`, hence the `Option ℚ` default parameter. -/
def get_rate_safe (rates : List (String × Option ℚ)) (symbol : String)
    (dflt : Option ℚ) : Option ℚ :=
  if symbol = "" then dflt
  else
    match rates.lookup symbol with
    | some (some v) => some v
    | _ =>
      match firstHit rates [symbol, symbol ++ "=X", symbol ++ "-USD",
          strReplace symbol "-USD" "", strReplace symbol "=X" ""] with
      | some v => some v
      | none => dflt

/-- `_get_rate_safe` with its default default `Decimal("1.0")`, as a plain
rational. -/
def getRateSafe1 (rates : List (String × Option ℚ)) (symbol : String) : ℚ :=
  (get_rate_safe rates symbol (some 1)).getD 1

/-- The purchase-price fallback arm of `get_price` (valuation.py lines
56-62 and 65-71): `purchase_price * rate(native currency)`. -/
def fallbackPriceUsd (a : PAsset) (rates : List (String × Option ℚ)) : ℚ :=
  a.purchase_price.getD 0 * getRateSafe1 rates (orUSD a.currency)

/-- The pivot-denominated price of `ValuationService.get_price`
(valuation.py lines 26-71), i.e. everything before the final `USD → main`
conversion: manual override first, then market ticker rate, then the
purchase-price fallback. -/
def price_in_usd (a : PAsset) (rates : List (String × Option ℚ))
    (manual_prices : List (ℕ × ℚ × String)) : ℚ :=
  match manual_prices.lookup a.id with
  | some pc => pc.1 * getRateSafe1 rates pc.2
  | none =>
    if tickerTruthy a.ticker_symbol then
      match get_rate_safe rates (a.ticker_symbol.getD "") none with
      | some rate => rate
      | none => fallbackPriceUsd a rates
    else fallbackPriceUsd a rates

/-- `ValuationService.get_price` (valuation.py lines 12-82): the pivot price
divided by the main currency's rate, with an explicit zero guard. -/
def get_price (a : PAsset) (rates : List (String × Option ℚ))
    (manual_prices : List (ℕ × ℚ × String)) (main_currency : String) : ℚ :=
  let main_rate_usd := getRateSafe1 rates main_currency
  if main_rate_usd = 0 then 0
  else price_in_usd a rates manual_prices / main_rate_usd

/-! ## PortfolioReconstructor — `services/portfolio/service.py`

`Transaction.date` is a `DateTime` column while the reconstruction target is
a `date`; the SQL comparison `Transaction.date > target_date` compares the
timestamp against midnight of the target day (PostgreSQL semantics; SQLite's
string comparison additionally counts midnight rows on the target day as
"after" — the claims are settled under the midnight-comparison semantics).
A timestamp is a day ordinal (`ℤ`) plus a seconds-of-day component (`ℕ`).
The per-asset quantity dict is a total function `ℕ → ℚ` updated pointwise
(every transaction key is seeded from the asset list in the source). -/

/-- The fields of `models.Transaction` the reconstruction reads
(`quantity_change` already `sanitize_decimal`-ed as in the source). -/
structure Tx where
  asset_id : ℕ
  ty : String
  day : ℤ
  tod : ℕ
  qc : ℚ
  deriving DecidableEq, Repr

/-- SQL `Transaction.date > target_date` (timestamp vs. midnight of `d`). -/
def dtGtDate (t : Tx) (d : ℤ) : Bool :=
  d < t.day ∨ (t.day = d ∧ 0 < t.tod)

/-- Reversing one transaction's effect (service.py lines 225-231 and
366-377): subtract a BUY's quantity change, add a SELL's back, leave other
types unchanged. -/
def applyReverse (q : ℕ → ℚ) (t : Tx) : ℕ → ℚ := fun aid =>
  if aid = t.asset_id then
    if t.ty = "BUY" then q aid - t.qc
    else if t.ty = "SELL" then q aid + t.qc
    else q aid
  else q aid

/-- Forward replay of one transaction (the inverse reading of the same
ledger rule): a BUY adds its quantity change, a SELL subtracts it. -/
def applyForward (q : ℕ → ℚ) (t : Tx) : ℕ → ℚ := fun aid =>
  if aid = t.asset_id then
    if t.ty = "BUY" then q aid + t.qc
    else if t.ty = "SELL" then q aid - t.qc
    else q aid
  else q aid

/-- `{a.id: sanitize_decimal(a.quantity) for a in assets}` — current
quantities (later bindings win, as in a dict comprehension). -/
def initQ (assets : List (ℕ × ℚ)) : ℕ → ℚ :=
  assets.foldl (fun f a => fun aid => if aid = a.1 then a.2 else f aid) (fun _ => 0)

/-- `PortfolioService._calculate_historical_quantities` (service.py lines
202-233): start from current quantities and reverse every ledger transaction
dated after the target date. -/
def calc_historical_quantities (assets : List (ℕ × ℚ)) (ledger : List Tx)
    (d : ℤ) : ℕ → ℚ :=
  (ledger.filter (fun t => dtGtDate t d)).foldl applyReverse (initQ assets)

/-! ## The backward sweep of `PortfolioService.get_history` (service.py
lines 351-378) -/

/-- Descending full-timestamp order used by
`order_by(Transaction.date.desc())`. -/
def txBefore (a b : Tx) : Prop :=
  b.day < a.day ∨ (b.day = a.day ∧ b.tod ≤ a.tod)

instance : DecidableRel txBefore := fun a b => by
  unfold txBefore; infer_instance

instance : IsTotal Tx txBefore := ⟨by intro a b; unfold txBefore; omega⟩

instance : IsTrans Tx txBefore := ⟨by intro a b c; unfold txBefore; omega⟩

/-- Descending date order used by `sorted(dates, reverse=True)`. -/
def dateGe (a b : ℤ) : Prop := b ≤ a

instance : DecidableRel dateGe := fun a b => by
  unfold dateGe; infer_instance

instance : IsTotal ℤ dateGe := ⟨by intro a b; unfold dateGe; omega⟩

instance : IsTrans ℤ dateGe := ⟨by intro a b c; unfold dateGe; omega⟩

/-- The transaction-pointer inner `while` loop (service.py lines 366-377):
consume and reverse transactions while the pointer's transaction has
`tx.date.date() > d` — a comparison of the **day part only**. -/
def popWhile (d : ℤ) : (ℕ → ℚ) → List Tx → ((ℕ → ℚ) × List Tx)
  | q, [] => (q, [])
  | q, t :: rest =>
    if d < t.day then popWhile d (applyReverse q t) rest else (q, t :: rest)

/-- The outer per-date loop of the backward sweep: one snapshot
(`temp_qty.copy()`) per date, reusing the running quantity map and the
remaining transaction list. -/
def sweepAux (q : ℕ → ℚ) (txs : List Tx) : List ℤ → List (ℤ × (ℕ → ℚ))
  | [] => []
  | d :: ds =>
    let p := popWhile d q txs
    (d, p.1) :: sweepAux p.1 p.2 ds

/-- The quantity part of `PortfolioService.get_history` (service.py lines
351-378): fetch the ledger transactions dated (timestamp) after the range
start, sort them by timestamp descending, sort the dates descending, and
sweep, snapshotting the running quantity map at each date. -/
def get_history_quantities (assets : List (ℕ × ℚ)) (ledger : List Tx)
    (startDate : ℤ) (dates : List ℤ) : List (ℤ × (ℕ → ℚ)) :=
  let allTxs := List.insertionSort txBefore (ledger.filter (fun t => dtGtDate t startDate))
  sweepAux (initQ assets) allTxs (List.insertionSort dateGe dates)

/-! ## Compactor — `agents/market_compactor.py`

The four tier passes are SQL `DELETE` statements driven by
`ROW_NUMBER() OVER (PARTITION BY currency, <bucket> ORDER BY timestamp ASC)`
over the rows older than the tier's cutoff: within each
`(currency, bucket)` group the earliest row survives and the rest are
deleted. The SQL leaves the order among equal timestamps unspecified; the
embedding breaks such ties by primary key — a deterministic refinement (any
tie-break yields some valid execution, and the idempotence argument is
independent of the choice). Timestamps are seconds (`ℤ`), bucketing via
floor division, following the PostgreSQL dialect arm of the source (the
SQLite arm buckets by the same calendar units through `strftime`). -/

/-- One `exchange_rate_history` row as the compactor sees it. -/
structure CRow where
  id : ℕ
  currency : String
  ts : ℤ
  rate : ℚ
  deriving DecidableEq, Repr

/-- `DATE_TRUNC('hour', ts), FLOOR(EXTRACT(MINUTE)/15)` — the pair
determines, and is determined by, the 900-second bucket. -/
def bucket15m (ts : ℤ) : ℤ := ts.fdiv 900

/-- `DATE_TRUNC('hour', ts)`. -/
def bucket1h (ts : ℤ) : ℤ := ts.fdiv 3600

/-- `DATE_TRUNC('day', ts)`. -/
def bucket1d (ts : ℤ) : ℤ := ts.fdiv 86400

/-- `DATE_TRUNC('week', ts)`: weeks start on Monday; day 0 of the Unix epoch
is a Thursday, hence the 3-day shift. -/
def bucket1w (ts : ℤ) : ℤ := (ts.fdiv 86400 + 3).fdiv 7

/-- Same `(currency, bucket)` partition. -/
def sameGroup (bucket : ℤ → ℤ) (a b : CRow) : Bool :=
  a.currency = b.currency ∧ bucket a.ts = bucket b.ts

/-- `ORDER BY timestamp ASC` with ties broken by primary key. -/
def earlierRow (a b : CRow) : Bool :=
  a.ts < b.ts ∨ (a.ts = b.ts ∧ a.id < b.id)

/-- One tier pass: among rows older than `cutoff`, a row is deleted exactly
when some other older-than-cutoff row of its `(currency, bucket)` group
precedes it in the `ORDER BY`. -/
def compactTier (bucket : ℤ → ℤ) (cutoff : ℤ) (rows : List CRow) : List CRow :=
  rows.filter (fun r =>
    ¬ (r.ts < cutoff) ∨
      ¬ rows.any (fun s => s.ts < cutoff ∧ sameGroup bucket s r ∧ earlierRow s r))

/-- `MarketCompactorAgent.execute` (market_compactor.py lines 33-218): the
four tier passes in source order — 15-minute, hourly, daily, weekly — with
cutoffs `now` minus the configured retention days
(`retention_5min_days`, `retention_15min_days`, `retention_1h_days`,
`retention_1d_days` respectively). -/
def compactor_execute (now ret5 ret15 ret1h ret1d : ℤ) (rows : List CRow) : List CRow :=
  compactTier bucket1w (now - ret1d * 86400)
    (compactTier bucket1d (now - ret1h * 86400)
      (compactTier bucket1h (now - ret15 * 86400)
        (compactTier bucket15m (now - ret5 * 86400) rows)))

/-! ## MarketDataService — `services/market/service.py`

The service is embedded against an explicit store (`List HRow`) and opaque
provider functions (current-quote and historical-frame fetchers passed as
parameters). Only the returned rate maps are modelled; the persistence side
effects (`save_rates` / `save_history_batch` on freshly fetched points) do
not influence the returned value in the source — the result is assembled
from the in-memory `db_cache` — and are dropped here. Python dicts are
association lists built head-first so that lookup (first match) sees the
initial `{"USD": Decimal("1.0")}` binding. -/

/-- Python float truthiness (`if record.rate:`) — `0.0` is falsy, everything
else (NaN and ±inf included) truthy. -/
def pyTruthy : PyFloat → Bool
  | .val q => q ≠ 0
  | _ => true

/-- `MarketDataConfig.FALLBACK_RATES` (config.py lines 20-30). -/
def FALLBACK_RATES : List (String × ℚ) :=
  [("EUR", 109/100), ("GBP", 127/100), ("CHF", 112/100), ("CAD", 74/100),
   ("BTC", 94000), ("USD", 1), ("NEXO", 125/100), ("USDT", 1), ("CRO", 8/100)]

/-- `FALLBACK_RATES.get(c, Decimal("0.0"))`. -/
def fallbackRate (c : String) : ℚ := (FALLBACK_RATES.lookup c).getD 0

/-- The per-currency `ORDER BY timestamp DESC LIMIT 1` query of
`_get_rates_from_db`; among equal timestamps (which the uniqueness
constraint forbids per currency anyway) the first-listed row wins. -/
def latestRow (store : List HRow) (c : String) : Option HRow :=
  store.foldl (fun acc r =>
    if r.currency = c then
      match acc with
      | none => some r
      | some b => if b.ts < r.ts then some r else some b
    else acc) none

/-- `MarketDataService._get_rates_from_db` (service.py lines 104-134):
per requested currency, the latest stored rate if present and truthy
(sanitized), else the static fallback (default 0). -/
def get_rates_from_db (store : List HRow) (currencies : List String)
    (rates : List (String × ℚ)) : List (String × ℚ) :=
  rates ++ currencies.map (fun c =>
    match latestRow store c with
    | some rec =>
      if pyTruthy rec.rate then (c, sanitizeDecimal rec.rate) else (c, fallbackRate c)
    | none => (c, fallbackRate c))

/-- `MarketDataService._fetch_fresh_rates` (service.py lines 136-216) on the
uncontended happy path (the lock-timeout and exception arms degrade to
fallbacks; the single-task model always acquires the lock): resolve tickers,
fetch, map fetched tickers back to currencies, fall back statically for the
rest. -/
def fetch_fresh_rates (fetchCur : List String → List (String × ℚ))
    (currencies : List String) (rates : List (String × ℚ)) : List (String × ℚ) :=
  let ticker_map := currencies.filterMap (fun c => (resolve_ticker c).map (fun t => (c, t)))
  if ticker_map.isEmpty then rates
  else
    let new_rates := fetchCur (ticker_map.map Prod.snd)
    rates ++ currencies.map (fun c =>
      match ticker_map.lookup c with
      | some ticker =>
        match new_rates.lookup ticker with
        | some rate => (c, rate)
        | none => (c, fallbackRate c)
      | none => (c, fallbackRate c))

/-- `MarketDataService.get_rates` (service.py lines 81-102): seed
`{"USD": 1.0}`, strip USD from the fetch list, then the cache or fresh
path. -/
def get_rates (store : List HRow) (fetchCur : List String → List (String × ℚ))
    (currencies : List String) (fresh : Bool) : List (String × ℚ) :=
  let to_fetch := currencies.filter (fun c => c ≠ "USD")
  if to_fetch.isEmpty then [("USD", 1)]
  else if fresh then fetch_fresh_rates fetchCur to_fetch [("USD", 1)]
  else get_rates_from_db store to_fetch [("USD", 1)]

/-! ### `get_historical_rates_range` (service.py lines 239-364) -/

/-- Calendar day of a store row's timestamp. -/
def rowDay (r : HRow) : ℤ := r.ts.fdiv 86400

/-- `ORDER BY timestamp ASC` of `get_rates_series`. -/
def rowTsLe (a b : HRow) : Prop := a.ts ≤ b.ts

instance : DecidableRel rowTsLe := fun a b => by unfold rowTsLe; infer_instance

instance : IsTotal HRow rowTsLe := ⟨by intro a b; unfold rowTsLe; omega⟩

instance : IsTrans HRow rowTsLe := ⟨by intro a b c; unfold rowTsLe; omega⟩

/-- The in-memory `db_cache`: day × currency → rate. -/
def cacheUpdate (cache : ℤ → String → Option ℚ) (d : ℤ) (c : String) (v : ℚ) :
    ℤ → String → Option ℚ :=
  fun d' c' => if d' = d ∧ c' = c then some v else cache d' c'

/-- Step 1 of `get_historical_rates_range`: read all rows for the requested
currencies in `[start - 7 days, end]`, ascending by timestamp, and organize
them by `(day, currency)` — a later (newer) row overwrites an earlier one on
the same day. -/
def buildDbCache (store : List HRow) (currencies : List String) (startD endD : ℤ) :
    ℤ → String → Option ℚ :=
  (List.insertionSort rowTsLe (store.filter (fun r =>
      r.currency ∈ currencies ∧ startD - 7 ≤ rowDay r ∧ rowDay r ≤ endD))).foldl
    (fun cache r => cacheUpdate cache (rowDay r) r.currency (sanitizeDecimal r.rate))
    (fun _ _ => none)

/-- Step 2's gap test: some requested `(date, non-USD currency)` pair is
absent from the cache. -/
def missingAny (cache : ℤ → String → Option ℚ) (dates : List ℤ)
    (currencies : List String) : Bool :=
  dates.any (fun d => currencies.any (fun c => c ≠ "USD" ∧ (cache d c).isNone))

/-- One row of the provider's forward-filled `Close` frame: a day and the
per-ticker closing values (`PyFloat`, NaN possible). The single-ticker
scalar-row special case of the source is the one-binding instance of the
same lookup. -/
structure FRow where
  day : ℤ
  vals : List (String × PyFloat)
  deriving Repr

/-- Merging the fetched frame into the cache (service.py lines 308-339):
per frame row and per needed `(currency, ticker)`, a present value whose
sanitized rate is non-zero (`if rate and not rate.is_nan()`; sanitizing
never yields NaN) is recorded under `(frame day, currency)`. -/
def applyFetch (cache : ℤ → String → Option ℚ) (needed : List (String × Option String))
    (frame : List FRow) : ℤ → String → Option ℚ :=
  frame.foldl (fun cache frow =>
    needed.foldl (fun cache ct =>
      match ct.2 with
      | none => cache
      | some ticker =>
        match frow.vals.lookup ticker with
        | some v =>
          if sanitizeDecimal v ≠ 0 then cacheUpdate cache frow.day ct.1 (sanitizeDecimal v)
          else cache
        | none => cache) cache) cache

/-- Step 3's per-value resolution: the cache at the requested day, else
backward lookup up to 7 days, else `Decimal("0.0")` (a cached zero and the
`or`-default coincide). -/
def resolveVal (cache : ℤ → String → Option ℚ) (d : ℤ) (c : String) : ℚ :=
  (([0, 1, 2, 3, 4, 5, 6, 7].foldl (fun acc i =>
    match acc with
    | some v => some v
    | none => cache (d - i) c) none).getD 0)

/-- `MarketDataService.get_historical_rates_range` (service.py lines
239-364). Result: one map per requested date, seeded `{"USD": 1.0}` and
filled per non-USD currency from the (possibly provider-refreshed) cache.
The provider is modelled as a frame-valued function of the unique resolved
tickers and the padded date span; the upsert persistence of fetched points
does not feed back into the returned value and is dropped. -/
def get_historical_rates_range (store : List HRow)
    (fetchHist : List String → ℤ → ℤ → List FRow)
    (dates : List ℤ) (currencies : List String) : List (ℤ × List (String × ℚ)) :=
  if dates.isEmpty ∨ currencies.isEmpty then []
  else
    let startD := dates.foldl min dates.headI
    let endD := dates.foldl max dates.headI
    let cache0 := buildDbCache store currencies startD endD
    let needed := (currencies.filter (fun c => c ≠ "USD")).map
      (fun c => (c, resolve_ticker c))
    let uniqueTickers := (needed.filterMap Prod.snd).dedup
    let cache1 :=
      if missingAny cache0 dates currencies ∧ ¬ uniqueTickers.isEmpty then
        applyFetch cache0 needed (fetchHist uniqueTickers (startD - 7) (endD + 1))
      else cache0
    dates.map (fun d => (d, ("USD", 1) :: currencies.filterMap (fun c =>
      if c = "USD" then none else some (c, resolveVal cache1 d c))))

end WealtPulse

namespace WealtPulse

/-! ## Claim theorems: C1, C2, C6 -/

/-- C1 (code bug): the money-weighted-return computation never yields an
"indeterminate" marker — `calculate_mwr` returns the number `0` for **every**
input. Its cash-flow tuples are built `(amount, date)` while `xirr` unpacks
them as `(date, amount)`, so the very first sign comparison `amount > 0`
compares a `datetime.date` with `0` and raises `TypeError`, which the blanket
`except Exception` converts to `Decimal("0.0")`; even an honest `None` from
`xirr` would be converted to `Decimal("0.0")` by the explicit
`if res is not None else Decimal("0.0")`. -/
theorem C1_calculate_mwr_always_zero (start_value end_value : ℚ)
    (flows : List (ℤ × ℚ)) (start_date end_date : ℤ) :
    calculate_mwr start_value end_value flows start_date end_date = 0 := rfl

/-- C2 counterexample: the spec's resolution table demands
`resolve("AAPL") == "AAPL"`, but the source falls through to the generic
`f"{currency}-USD"` branch ("AAPL" has length 4, no dot, is not in the crypto
set), returning `"AAPL-USD"`. -/
theorem C2_counterexample_resolve_AAPL :
    resolve_ticker "AAPL" = some "AAPL-USD" ∧ resolve_ticker "AAPL" ≠ some "AAPL" := by
  constructor <;> decide

/-- C2 (amended): the resolver satisfies
`resolve("EUR") = "EURUSD=X"`, `resolve("BTC") = "BTC-USD"`,
`resolve("AAPL") = "AAPL-USD"` (not `"AAPL"`), and `resolve("USD") = null`. -/
theorem C2_resolution_table :
    resolve_ticker "EUR" = some "EURUSD=X" ∧
    resolve_ticker "BTC" = some "BTC-USD" ∧
    resolve_ticker "AAPL" = some "AAPL-USD" ∧
    resolve_ticker "USD" = none := by
  refine ⟨?_, ?_, ?_, ?_⟩ <;> decide

/-- C6 counterexample: with `startValue = 1`, `endValue = 5`, `netFlow = -1`
(a nonzero start), the claimed formula gives `(5 - (-1)) / 1 - 1 = 5`, but the
source's extra `start_value + net_flow == 0` guard returns `0`. -/
theorem C6_counterexample_twr :
    calculate_twr 1 5 (-1) = 0 ∧ (5 - (-1)) / 1 - 1 ≠ (0 : ℚ) := by
  constructor
  · norm_num [calculate_twr]
  · norm_num

/-- C6 (amended): the simple time-weighted return equals
`(endValue - netFlow) / startValue - 1` whenever `startValue ≠ 0` **and**
`startValue + netFlow ≠ 0`; it equals `0` when `startValue = 0` and also in
the additional guard case `startValue + netFlow = 0`. -/
theorem C6_twr_formula (s e f : ℚ) :
    (s ≠ 0 → s + f ≠ 0 → calculate_twr s e f = (e - f) / s - 1) ∧
    (s = 0 → calculate_twr s e f = 0) ∧
    (s + f = 0 → calculate_twr s e f = 0) := by
  unfold calculate_twr
  refine ⟨fun hs hsf => ?_, fun hs => ?_, fun hsf => ?_⟩
  · rw [if_neg hs, if_neg hsf]
  · rw [if_pos hs]
  · by_cases hs : s = 0
    · rw [if_pos hs]
    · rw [if_neg hs, if_pos hsf]

/-- C6 witness: the amended theorem applied at `startValue = 2`,
`endValue = 5`, `netFlow = 1`. -/
theorem C6_twr_formula_witness :
    calculate_twr 2 5 1 = (5 - 1) / 2 - 1 :=
  (C6_twr_formula 2 5 1).1 (by norm_num) (by norm_num)

/-! ## Claim theorems: C3, C4 -/

/-- Rows sharing a record's `(currency, timestamp)` key. -/
def sameKey (r row : HRow) : Bool :=
  decide (row.currency = r.currency ∧ row.ts = r.ts)

theorem sameKey_iff (r row : HRow) : sameKey r row = true ↔ rowKey row = rowKey r := by
  simp [sameKey, rowKey, Prod.ext_iff]

/-- In a batch with pairwise-distinct keys, filtering by a member's key
yields exactly that member. -/
theorem filter_sameKey_of_nodup (records : List HRow)
    (h : (records.map rowKey).Nodup) (r : HRow) (hr : r ∈ records) :
    records.filter (sameKey r) = [r] := by
  induction records with
  | nil => cases hr
  | cons a l ih =>
    rw [List.map_cons, List.nodup_cons] at h
    rcases List.mem_cons.mp hr with rfl | hrl
    · have hnil : l.filter (sameKey r) = [] := by
        apply List.filter_eq_nil_iff.mpr
        intro b hb hkey
        apply h.1
        rw [← (sameKey_iff r b).mp hkey]
        exact List.mem_map_of_mem rowKey hb
      have hrr : sameKey r r = true := by simp [sameKey]
      simp [List.filter_cons, hrr, hnil]
    · have hka : sameKey r a = false := by
        rw [Bool.eq_false_iff]
        intro ht
        apply h.1
        rw [(sameKey_iff r a).mp ht]
        exact List.mem_map_of_mem rowKey hrl
      simp [List.filter_cons, hka, ih h.2 hrl]

/-- Keys stay pairwise distinct on a filtered sub-batch. -/
theorem hasDupKeys_filter (p : HRow → Bool) (l : List HRow)
    (h : hasDupKeys l = false) : hasDupKeys (l.filter p) = false := by
  simp only [hasDupKeys, decide_eq_false_iff_not, not_not] at h ⊢
  exact h.sublist (List.Sublist.map rowKey (List.filter_sublist l))

/-- Filtering by a key wipes out any sub-table from which all rows with that
key were excluded. -/
theorem filter_filter_sameKey_nil (r : HRow) (p : HRow → Bool) (l : List HRow)
    (h : ∀ row, sameKey r row = true → p row = false) :
    (l.filter p).filter (sameKey r) = [] := by
  apply List.filter_eq_nil_iff.mpr
  intro row hrow hkey
  have hp : p row = true := List.of_mem_filter hrow
  rw [h row hkey] at hp
  exact Bool.false_ne_true hp

/-- C3 counterexample: a record with rate `-1` (≤ 0) passed to
`save_history_batch` **is** inserted into the rate store — the history write
path performs no rate validation. -/
theorem C3_counterexample_invalid_rate_persisted :
    (⟨"EUR", PyFloat.val (-1), 0⟩ : HRow) ∈
      save_history_batch [] [⟨"EUR", PyFloat.val (-1), 0⟩] false ∧
    ((-1 : ℚ) ≤ 0) := by
  constructor
  · decide
  · norm_num

/-- C3 (amended): only `save_rates` enforces the invariant — every row it
persists has a finite rate `> 0` and a non-USD currency — while
`save_history_batch` inserts batch records without any rate validation: in
upsert mode every record of a duplicate-key-free batch lands in the store,
whatever its rate (NaN, infinite, or ≤ 0 included). -/
theorem C3_write_boundary_validation
    (rates : List (String × Option PyFloat)) (timestamp : ℤ)
    (st records : List HRow) (hnd : hasDupKeys records = false) :
    (∀ row ∈ save_rates rates timestamp,
      row.currency ≠ "USD" ∧ ∃ q, row.rate = PyFloat.val q ∧ 0 < q) ∧
    (∀ r ∈ records, r ∈ save_history_batch st records true) := by
  constructor
  · intro row hrow
    simp only [save_rates, List.mem_filterMap] at hrow
    obtain ⟨cr, -, hcr⟩ := hrow
    by_cases husd : cr.1 = "USD"
    · simp [husd] at hcr
    rcases hval : cr.2 with - | pf
    · simp [husd, hval] at hcr
    rcases pf with - | - | - | q
    · simp [husd, hval, isInvalidRate] at hcr
    · simp [husd, hval, isInvalidRate] at hcr
    · simp [husd, hval, isInvalidRate] at hcr
    · by_cases hq : q ≤ 0
      · simp [husd, hval, isInvalidRate, hq] at hcr
      · simp [husd, hval, isInvalidRate, hq] at hcr
        subst hcr
        exact ⟨husd, q, rfl, lt_of_not_le hq⟩
  · intro r hr
    have hne : records.isEmpty = false :=
      List.isEmpty_eq_false.mpr (List.ne_nil_of_mem hr)
    simp only [save_history_batch, hne, Bool.false_eq_true, if_false, if_true, hnd]
    exact List.mem_append_right _ hr

/-- C3 witness: a NaN-rate record is persisted by the history batch path. -/
theorem C3_write_boundary_validation_witness :
    (⟨"EUR", PyFloat.nan, 5⟩ : HRow) ∈
      save_history_batch [] [⟨"EUR", PyFloat.nan, 5⟩] true :=
  (C3_write_boundary_validation [] 0 [] [⟨"EUR", PyFloat.nan, 5⟩] (by decide)).2
    _ (by decide)

/-- C4 counterexample: a backfill run invoked without `force` does **not**
persist in upsert mode — a freshly fetched rate (3) colliding with a cached
row (rate 2, same currency and timestamp) is dropped and the cached row
survives unchanged. -/
theorem C4_counterexample_no_upsert_without_force :
    persist_history [⟨"EUR", PyFloat.val 2, 100⟩] [(100, [("EUR", 3)])] false
      = [⟨"EUR", PyFloat.val 2, 100⟩] ∧
    (⟨"EUR", PyFloat.val 3, 100⟩ : HRow) ∉
      persist_history [⟨"EUR", PyFloat.val 2, 100⟩] [(100, [("EUR", 3)])] false := by
  constructor <;> decide

/-- C4 (amended): backfill persists with `upsert := force`, the run's
`force` flag (default false), not unconditionally. With `force = true`, each
fetched record replaces whatever rows shared its `(currency, timestamp)` key
(the store ends up with exactly that record under that key); with
`force = false`, every cached row survives, and a fetched record whose key is
already cached is skipped (the rows under that key are unchanged). -/
theorem C4_backfill_upsert_iff_force
    (st : List HRow) (series : List (ℤ × List (String × ℚ)))
    (hnd : hasDupKeys (flattenSeries series) = false) :
    (∀ r ∈ flattenSeries series,
      (persist_history st series true).filter (sameKey r) = [r]) ∧
    (∀ row ∈ st, row ∈ persist_history st series false) ∧
    (∀ r ∈ flattenSeries series, keyIn st r.currency r.ts = true →
      (persist_history st series false).filter (sameKey r) = st.filter (sameKey r)) := by
  have hndk : ((flattenSeries series).map rowKey).Nodup := by
    simpa [hasDupKeys, decide_eq_false_iff_not, not_not] using hnd
  refine ⟨?_, ?_, ?_⟩
  · intro r hr
    have hne : (flattenSeries series).isEmpty = false :=
      List.isEmpty_eq_false.mpr (List.ne_nil_of_mem hr)
    simp only [persist_history, save_history_batch, hne, Bool.false_eq_true,
      if_false, if_true, hnd]
    rw [List.filter_append, filter_sameKey_of_nodup _ hndk r hr,
      List.append_left_eq_self]
    apply filter_filter_sameKey_nil
    intro row hkey
    have hkk := (sameKey_iff r row).mp hkey
    simp only [rowKey, Prod.mk.injEq] at hkk
    simp only [decide_eq_false_iff_not, not_not, List.any_eq_true]
    exact ⟨r, hr, by simp [hkk.1, hkk.2]⟩
  · intro row hrow
    rcases hne : (flattenSeries series).isEmpty with hf | ht
    · simp only [persist_history, save_history_batch, hne, Bool.false_eq_true, if_false]
      rw [if_neg]
      · exact List.mem_append_left _ hrow
      · simp [hasDupKeys_filter _ _ hnd]
    · simp only [persist_history, save_history_batch, hne, if_true]
      exact hrow
  · intro r hr hkey
    have hne : (flattenSeries series).isEmpty = false :=
      List.isEmpty_eq_false.mpr (List.ne_nil_of_mem hr)
    simp only [persist_history, save_history_batch, hne, Bool.false_eq_true, if_false]
    rw [if_neg (by simp [hasDupKeys_filter _ _ hnd])]
    rw [List.filter_append, List.append_right_eq_self]
    apply filter_filter_sameKey_nil
    intro row hk
    have hkk := (sameKey_iff r row).mp hk
    simp only [rowKey, Prod.mk.injEq] at hkk
    simp only [decide_eq_false_iff_not, not_not]
    rw [hkk.1, hkk.2]
    exact hkey

/-- C4 witness: with `force = true`, the fetched record (rate 3) replaces
the cached colliding row (rate 2). -/
theorem C4_backfill_upsert_iff_force_witness :
    (persist_history [⟨"EUR", PyFloat.val 2, 100⟩] [(100, [("EUR", 3)])] true).filter
      (sameKey ⟨"EUR", PyFloat.val 3, 100⟩) = [⟨"EUR", PyFloat.val 3, 100⟩] :=
  (C4_backfill_upsert_iff_force [⟨"EUR", PyFloat.val 2, 100⟩] [(100, [("EUR", 3)])]
    (by decide)).1 _ (by decide)

/-! ## Claim theorems: C5 -/

/-- If the alias-fallback lookup misses entirely (default `None` comes
back), then with the default `Decimal("1.0")` the same lookup returns
exactly `1`. -/
theorem get_rate_safe_default_one (rates : List (String × Option ℚ)) (s : String)
    (h : get_rate_safe rates s none = none) :
    get_rate_safe rates s (some 1) = some 1 := by
  unfold get_rate_safe at h ⊢
  by_cases hs : s = ""
  · simp [hs]
  · simp only [hs, if_false] at h ⊢
    set lv := rates.lookup s with hlv
    set fv := firstHit rates [s, s ++ "=X", s ++ "-USD",
      strReplace s "-USD" "", strReplace s "=X" ""] with hfv
    clear_value lv fv
    rcases lv with - | ov
    · rcases fv with - | v
      · rfl
      · exact Option.noConfusion h
    · rcases ov with - | v
      · rcases fv with - | v
        · rfl
        · exact Option.noConfusion h
      · exact Option.noConfusion h

/-- C5 counterexample: with an empty rate map — so the target currency
`"EUR"` is absent in every alias variant — the price of an asset with
purchase price 5 is `5`, not the claimed `0`: the missing target rate
defaults to `1.0`, it does not zero the result. -/
theorem C5_counterexample_missing_target_rate :
    get_price ⟨1, none, some 5, some "USD"⟩ [] [] "EUR" = 5 ∧ (5 : ℚ) ≠ 0 := by
  constructor
  · norm_num [get_price, price_in_usd, getRateSafe1, get_rate_safe,
      fallbackPriceUsd, firstHit, tickerTruthy, orUSD, strReplace, replaceAux,
      List.lookup, List.isPrefixOf]
  · norm_num

/-- C5 (amended): the unit price is the pivot-denominated price divided by
the alias-fallback rate of the target currency, **where that rate defaults
to `1.0` when the target currency is absent from the rate map in every
alias variant** (so the result is then the pivot price unchanged, not
zero); only a rate that is present and equal to zero short-circuits the
division and yields zero, so no division by zero occurs. -/
theorem C5_price_conversion (a : PAsset) (rates : List (String × Option ℚ))
    (mp : List (ℕ × ℚ × String)) (main : String) :
    (getRateSafe1 rates main = 0 → get_price a rates mp main = 0) ∧
    (getRateSafe1 rates main ≠ 0 →
      get_price a rates mp main = price_in_usd a rates mp / getRateSafe1 rates main) ∧
    (get_rate_safe rates main none = none →
      get_price a rates mp main = price_in_usd a rates mp) := by
  refine ⟨fun h0 => ?_, fun hn => ?_, fun hmiss => ?_⟩
  · simp only [get_price, h0, if_true]
  · simp only [get_price, hn, if_false]
  · have h1 : getRateSafe1 rates main = 1 := by
      simp [getRateSafe1, get_rate_safe_default_one rates main hmiss]
    simp [get_price, h1]

/-- C5 witness: a present-but-zero target rate yields price `0`. -/
theorem C5_price_conversion_witness :
    get_price ⟨1, none, some 5, some "USD"⟩ [("EUR", some 0)] [] "EUR" = 0 :=
  (C5_price_conversion ⟨1, none, some 5, some "USD"⟩ [("EUR", some 0)] [] "EUR").1 rfl

/-! ## Claim theorems: C7, C8 -/

/-- The signed quantity effect one transaction contributes to one asset
(BUY positive, SELL negative, others nil). -/
def txEffect (aid : ℕ) (t : Tx) : ℚ :=
  if aid = t.asset_id then
    if t.ty = "BUY" then t.qc else if t.ty = "SELL" then -t.qc else 0
  else 0

theorem applyForward_apply (q : ℕ → ℚ) (t : Tx) (aid : ℕ) :
    applyForward q t aid = q aid + txEffect aid t := by
  unfold applyForward txEffect
  by_cases h1 : aid = t.asset_id <;> by_cases h2 : t.ty = "BUY" <;>
    by_cases h3 : t.ty = "SELL" <;> simp [h1, h2, h3, sub_eq_add_neg]

theorem applyReverse_apply (q : ℕ → ℚ) (t : Tx) (aid : ℕ) :
    applyReverse q t aid = q aid - txEffect aid t := by
  unfold applyReverse txEffect
  by_cases h1 : aid = t.asset_id <;> by_cases h2 : t.ty = "BUY" <;>
    by_cases h3 : t.ty = "SELL" <;> simp [h1, h2, h3, sub_neg_eq_add]

theorem foldl_applyForward (txs : List Tx) (q : ℕ → ℚ) (aid : ℕ) :
    (txs.foldl applyForward q) aid = q aid + ((txs.map (txEffect aid)).sum) := by
  induction txs generalizing q with
  | nil => simp
  | cons t rest ih =>
    rw [List.foldl_cons, ih, applyForward_apply, List.map_cons, List.sum_cons]
    ring

theorem foldl_applyReverse (txs : List Tx) (q : ℕ → ℚ) (aid : ℕ) :
    (txs.foldl applyReverse q) aid = q aid - ((txs.map (txEffect aid)).sum) := by
  induction txs generalizing q with
  | nil => simp
  | cons t rest ih =>
    rw [List.foldl_cons, ih, applyReverse_apply, List.map_cons, List.sum_cons]
    ring

/-- C7: reconstruction round-trip. For every asset, every target date and
every ledger, forward-replaying the after-`d` transactions (BUY adds, SELL
subtracts) on top of the reconstructed historical quantities recovers the
asset's current quantity exactly. -/
theorem C7_reconstruction_roundtrip (assets : List (ℕ × ℚ)) (ledger : List Tx)
    (d : ℤ) (aid : ℕ) :
    ((ledger.filter (fun t => dtGtDate t d)).foldl applyForward
      (calc_historical_quantities assets ledger d)) aid = initQ assets aid := by
  rw [foldl_applyForward, calc_historical_quantities, foldl_applyReverse]
  ring

/-- `popWhile` consumes exactly the maximal prefix with `day > d`. -/
theorem popWhile_eq (d : ℤ) (txs : List Tx) (q : ℕ → ℚ) :
    popWhile d q txs =
      ((txs.takeWhile (fun t => decide (d < t.day))).foldl applyReverse q,
       txs.dropWhile (fun t => decide (d < t.day))) := by
  induction txs generalizing q with
  | nil => simp [popWhile]
  | cons t rest ih =>
    by_cases h : d < t.day
    · simp [popWhile, List.takeWhile_cons, List.dropWhile_cons, h, ih]
    · simp [popWhile, List.takeWhile_cons, List.dropWhile_cons, h]

/-- On a day-descending list, the `day > d` prefix is the whole `day > d`
sub-list. -/
theorem takeWhile_eq_filter_of_daySorted (d : ℤ) (txs : List Tx)
    (hp : List.Pairwise (fun a b : Tx => b.day ≤ a.day) txs) :
    txs.takeWhile (fun t => decide (d < t.day)) =
      txs.filter (fun t => decide (d < t.day)) := by
  induction txs with
  | nil => simp
  | cons t rest ih =>
    rw [List.pairwise_cons] at hp
    by_cases h : d < t.day
    · simp [List.takeWhile_cons, List.filter_cons, h, ih hp.2]
    · have hrest : rest.filter (fun t => decide (d < t.day)) = [] :=
        List.filter_eq_nil_iff.mpr (fun b hb => by
          have := hp.1 b hb
          simp only [decide_eq_true_eq]
          omega)
      simp [List.takeWhile_cons, List.filter_cons, h, hrest]

/-- Every snapshot date produced by the sweep is one of the requested
dates. -/
theorem sweep_fst_mem (ds : List ℤ) (q : ℕ → ℚ) (txs : List Tx)
    (p : ℤ × (ℕ → ℚ)) (hp : p ∈ sweepAux q txs ds) : p.1 ∈ ds := by
  induction ds generalizing q txs with
  | nil => cases hp
  | cons d rest ih =>
    rcases List.mem_cons.mp hp with rfl | hmem
    · exact List.mem_cons_self _ _
    · exact List.mem_cons_of_mem _ (ih _ _ hmem)

/-- Sweep snapshot characterization: on day-descending transactions and
descending dates, the snapshot at date `d` is the starting map minus the
effects of exactly the transactions with `day > d`. -/
theorem sweep_snapshot (ds : List ℤ) (q : ℕ → ℚ) (txs : List Tx)
    (htx : List.Pairwise (fun a b : Tx => b.day ≤ a.day) txs)
    (hds : List.Pairwise (fun a b : ℤ => b ≤ a) ds)
    (p : ℤ × (ℕ → ℚ)) (hp : p ∈ sweepAux q txs ds) (aid : ℕ) :
    p.2 aid = q aid -
      ((txs.filter (fun t => decide (p.1 < t.day))).map (txEffect aid)).sum := by
  induction ds generalizing q txs with
  | nil => cases hp
  | cons d rest ih =>
    rw [List.pairwise_cons] at hds
    have hpw := popWhile_eq d txs q
    have htake := takeWhile_eq_filter_of_daySorted d txs htx
    simp only [sweepAux] at hp
    rcases List.mem_cons.mp hp with rfl | hmem
    · simp only [hpw, htake, foldl_applyReverse]
    · rw [hpw] at hmem
      have hdrop_pw : List.Pairwise (fun a b : Tx => b.day ≤ a.day)
          (txs.dropWhile (fun t => decide (d < t.day))) :=
        List.Pairwise.sublist (List.dropWhile_sublist _) htx
      have hrec := ih ((txs.takeWhile (fun t => decide (d < t.day))).foldl applyReverse q)
        (txs.dropWhile (fun t => decide (d < t.day))) hdrop_pw hds.2 hmem
      have hple : p.1 ≤ d := hds.1 _ (sweep_fst_mem rest _ _ p hmem)
      have hq' := foldl_applyReverse (txs.takeWhile (fun t => decide (d < t.day))) q aid
      have hsplit : txs.filter (fun t => decide (p.1 < t.day)) =
          txs.takeWhile (fun t => decide (d < t.day)) ++
            (txs.dropWhile (fun t => decide (d < t.day))).filter
              (fun t => decide (p.1 < t.day)) := by
        conv_lhs =>
          rw [← List.takeWhile_append_dropWhile
            (p := fun t => decide (d < t.day)) (l := txs)]
        rw [List.filter_append]
        congr 1
        apply List.filter_eq_self.mpr
        intro t ht
        have h2 := List.mem_takeWhile_imp ht
        simp only [decide_eq_true_eq] at h2 ⊢
        omega
      rw [hrec, hq', hsplit, List.map_append, List.sum_append]
      ring

/-- C8 counterexample: one BUY of 5 units timestamped at 01:00 on day 5,
current quantity 10, date list `[5]`. The sweep's pointer condition compares
**day parts** (`tx.date.date() > d` is false for day 5), so its snapshot at
day 5 is 10; the single-date reconstruction's SQL filter
(`Transaction.date > target_date`, timestamp vs. midnight) reverts the
transaction and yields 5. -/
theorem C8_counterexample_intraday_tx :
    ((get_history_quantities [(1, 10)] [⟨1, "BUY", 5, 3600, 5⟩] 5 [5]).map
      (fun p => (p.1, p.2 1))) = [(5, 10)] ∧
    calc_historical_quantities [(1, 10)] [⟨1, "BUY", 5, 3600, 5⟩] 5 1 = 5 ∧
    (10 : ℚ) ≠ 5 := by
  refine ⟨rfl, ?_, by norm_num⟩
  show applyReverse (initQ [(1, 10)]) ⟨1, "BUY", 5, 3600, 5⟩ 1 = 5
  norm_num [applyReverse, initQ]

/-- C8 (amended): the backward sweep of `get_history` assigns to a date `d`
the same per-asset quantities as the from-scratch reconstruction at `d`
provided every requested date is on/after the range start **and no ledger
transaction dated on day `d` itself carries a nonzero time-of-day**: the
sweep reverts only transactions whose day part is strictly after `d`, while
the from-scratch SQL filter (timestamp > midnight of `d`) also reverts
transactions from within day `d`. -/
theorem C8_sweep_matches_reconstruction
    (assets : List (ℕ × ℚ)) (ledger : List Tx) (startDate : ℤ) (dates : List ℤ)
    (hstart : ∀ d' ∈ dates, startDate ≤ d')
    (snap : ℤ × (ℕ → ℚ))
    (hsnap : snap ∈ get_history_quantities assets ledger startDate dates)
    (hmid : ∀ t ∈ ledger, t.day = snap.1 → t.tod = 0) (aid : ℕ) :
    snap.2 aid = calc_historical_quantities assets ledger snap.1 aid := by
  simp only [get_history_quantities] at hsnap
  have htx : List.Pairwise (fun a b : Tx => b.day ≤ a.day)
      (List.insertionSort txBefore (ledger.filter (fun t => dtGtDate t startDate))) :=
    (List.sorted_insertionSort txBefore _).imp (fun h => by unfold txBefore at h; omega)
  have hds : List.Pairwise (fun a b : ℤ => b ≤ a) (List.insertionSort dateGe dates) :=
    (List.sorted_insertionSort dateGe _).imp (fun h => h)
  have hkey := sweep_snapshot (List.insertionSort dateGe dates) (initQ assets) _
    htx hds snap hsnap aid
  have hdmem : snap.1 ∈ dates :=
    (List.perm_insertionSort dateGe dates).mem_iff.mp
      (sweep_fst_mem _ _ _ snap hsnap)
  have hsd : startDate ≤ snap.1 := hstart _ hdmem
  have hperm : List.Perm
      ((List.insertionSort txBefore (ledger.filter (fun t => dtGtDate t startDate))).filter
        (fun t => decide (snap.1 < t.day)))
      ((ledger.filter (fun t => dtGtDate t startDate)).filter
        (fun t => decide (snap.1 < t.day))) :=
    (List.perm_insertionSort txBefore _).filter _
  have hfilter : (ledger.filter (fun t => dtGtDate t startDate)).filter
      (fun t => decide (snap.1 < t.day)) =
      ledger.filter (fun t => dtGtDate t snap.1) := by
    rw [List.filter_filter]
    apply List.filter_congr
    intro t ht
    have hm := hmid t ht
    unfold dtGtDate
    by_cases h1 : snap.1 < t.day
    · have h2 : startDate < t.day := by omega
      simp [h1, h2]
    · by_cases h3 : t.day = snap.1
      · have h4 := hm h3
        simp [h1, h3, h4]
      · simp [h1, h3]
  rw [hkey, calc_historical_quantities, foldl_applyReverse]
  congr 1
  rw [← hfilter]
  exact (hperm.map (txEffect aid)).sum_eq

/-! ## Claim theorems: C9 -/

theorem earlierRow_irrefl (r : CRow) : earlierRow r r = false := by
  simp [earlierRow]

theorem earlierRow_total (r s : CRow) (h : r.id ≠ s.id) :
    earlierRow r s = true ∨ earlierRow s r = true := by
  simp only [earlierRow, decide_eq_true_eq, Bool.or_eq_true]
  omega

theorem sameGroup_symm (b : ℤ → ℤ) (r s : CRow) (h : sameGroup b r s = true) :
    sameGroup b s r = true := by
  simp only [sameGroup, decide_eq_true_eq] at h ⊢
  exact ⟨h.1.symm, h.2.symm⟩

/-- After one tier pass, each `(currency, bucket)` group has at most one row
older than the cutoff (given pairwise-distinct primary keys). -/
theorem compactTier_unique (b : ℤ → ℤ) (c : ℤ) (rows : List CRow)
    (hids : (rows.map CRow.id).Nodup) :
    ∀ r ∈ compactTier b c rows, ∀ s ∈ compactTier b c rows,
      r.ts < c → s.ts < c → sameGroup b r s = true → r = s := by
  intro r hr s hs hrc hsc hg
  by_contra hne
  have hrrows : r ∈ rows := (List.filter_sublist rows).subset hr
  have hsrows : s ∈ rows := (List.filter_sublist rows).subset hs
  have hid : r.id ≠ s.id := fun h => hne (List.inj_on_of_nodup_map hids hrrows hsrows h)
  rcases earlierRow_total r s hid with het | het
  · have hcond := List.of_mem_filter hs
    simp only [decide_eq_true_eq] at hcond
    rcases hcond with hcon | hcon
    · exact hcon hsc
    · exact hcon (List.any_eq_true.mpr ⟨r, hrrows, by
        simp only [decide_eq_true_eq]
        exact ⟨hrc, hg, het⟩⟩)
  · have hcond := List.of_mem_filter hr
    simp only [decide_eq_true_eq] at hcond
    rcases hcond with hcon | hcon
    · exact hcon hrc
    · exact hcon (List.any_eq_true.mpr ⟨s, hsrows, by
        simp only [decide_eq_true_eq]
        exact ⟨hsc, sameGroup_symm b r s hg, het⟩⟩)

/-- A tier pass is a no-op on a table whose older-than-cutoff rows are
already unique per `(currency, bucket)` group. -/
theorem compactTier_eq_self (b : ℤ → ℤ) (c : ℤ) (rows : List CRow)
    (h : ∀ r ∈ rows, ∀ s ∈ rows, r.ts < c → s.ts < c → sameGroup b r s = true → r = s) :
    compactTier b c rows = rows := by
  apply List.filter_eq_self.mpr
  intro r hr
  simp only [decide_eq_true_eq]
  by_cases hrc : r.ts < c
  · right
    intro hany
    obtain ⟨s, hs, hsp⟩ := List.any_eq_true.mp hany
    rw [decide_eq_true_eq] at hsp
    obtain ⟨hsc, hg, het⟩ := hsp
    have heq := h s hs r hr hsc hrc hg
    rw [heq, earlierRow_irrefl] at het
    exact Bool.false_ne_true het
  · left
    exact hrc

/-- C9: the four-tier compaction is idempotent — for every store state (with
pairwise-distinct primary keys) and every fixed `now` / retention
configuration, running `MarketCompactorAgent.execute` a second time returns
the store unchanged (so it deletes nothing and the row count equals that of
a single run). -/
theorem C9_compactor_idempotent (now ret5 ret15 ret1h ret1d : ℤ) (rows : List CRow)
    (hids : (rows.map CRow.id).Nodup) :
    compactor_execute now ret5 ret15 ret1h ret1d
        (compactor_execute now ret5 ret15 ret1h ret1d rows) =
      compactor_execute now ret5 ret15 ret1h ret1d rows := by
  set c1 := now - ret5 * 86400 with hc1
  set c2 := now - ret15 * 86400 with hc2
  set c3 := now - ret1h * 86400 with hc3
  set c4 := now - ret1d * 86400 with hc4
  set S1 := compactTier bucket15m c1 rows with hS1
  set S2 := compactTier bucket1h c2 S1 with hS2
  set S3 := compactTier bucket1d c3 S2 with hS3
  set S4 := compactTier bucket1w c4 S3 with hS4
  have hgoal : compactor_execute now ret5 ret15 ret1h ret1d rows = S4 := by
    rw [compactor_execute, ← hc1, ← hc2, ← hc3, ← hc4, ← hS1, ← hS2, ← hS3, ← hS4]
  rw [hgoal, compactor_execute, ← hc1, ← hc2, ← hc3, ← hc4]
  have hsub1 : S1.Sublist rows := List.filter_sublist _
  have hids1 : (S1.map CRow.id).Nodup := hids.sublist (hsub1.map _)
  have hsub2 : S2.Sublist S1 := List.filter_sublist _
  have hids2 : (S2.map CRow.id).Nodup := hids1.sublist (hsub2.map _)
  have hsub3 : S3.Sublist S2 := List.filter_sublist _
  have hids3 : (S3.map CRow.id).Nodup := hids2.sublist (hsub3.map _)
  have hsub4 : S4.Sublist S3 := List.filter_sublist _
  have hm1 : ∀ x ∈ S4, x ∈ S1 :=
    fun x hx => hsub2.subset (hsub3.subset (hsub4.subset hx))
  have hm2 : ∀ x ∈ S4, x ∈ S2 := fun x hx => hsub3.subset (hsub4.subset hx)
  have hm3 : ∀ x ∈ S4, x ∈ S3 := fun x hx => hsub4.subset hx
  have hu1 : ∀ r ∈ S4, ∀ s ∈ S4, r.ts < c1 → s.ts < c1 →
      sameGroup bucket15m r s = true → r = s :=
    fun r hr s hs => compactTier_unique bucket15m c1 rows hids r (hm1 r hr) s (hm1 s hs)
  have hu2 : ∀ r ∈ S4, ∀ s ∈ S4, r.ts < c2 → s.ts < c2 →
      sameGroup bucket1h r s = true → r = s :=
    fun r hr s hs => compactTier_unique bucket1h c2 S1 hids1 r (hm2 r hr) s (hm2 s hs)
  have hu3 : ∀ r ∈ S4, ∀ s ∈ S4, r.ts < c3 → s.ts < c3 →
      sameGroup bucket1d r s = true → r = s :=
    fun r hr s hs => compactTier_unique bucket1d c3 S2 hids2 r (hm3 r hr) s (hm3 s hs)
  have hu4 : ∀ r ∈ S4, ∀ s ∈ S4, r.ts < c4 → s.ts < c4 →
      sameGroup bucket1w r s = true → r = s :=
    fun r hr s hs => compactTier_unique bucket1w c4 S3 hids3 r hr s hs
  rw [compactTier_eq_self bucket15m c1 S4 hu1, compactTier_eq_self bucket1h c2 S4 hu2,
    compactTier_eq_self bucket1d c3 S4 hu3, compactTier_eq_self bucket1w c4 S4 hu4]

/-- C9 witness: two same-bucket EUR rows, everything older than all cutoffs;
the double run equals the single run. -/
theorem C9_compactor_idempotent_witness :
    compactor_execute 1000000 0 0 0 0
        (compactor_execute 1000000 0 0 0 0
          [⟨1, "EUR", 0, 1⟩, ⟨2, "EUR", 60, 2⟩]) =
      compactor_execute 1000000 0 0 0 0 [⟨1, "EUR", 0, 1⟩, ⟨2, "EUR", 60, 2⟩] :=
  C9_compactor_idempotent 1000000 0 0 0 0 [⟨1, "EUR", 0, 1⟩, ⟨2, "EUR", 60, 2⟩]
    (by decide)

/-- C8 witness: a BUY on day 6 (midnight), sweep over dates `[5]` from start
5 — the sweep snapshot at day 5 agrees with the from-scratch
reconstruction. -/
theorem C8_sweep_matches_reconstruction_witness :
    ((5 : ℤ), applyReverse (initQ [(1, 10)]) ⟨1, "BUY", 6, 0, 5⟩).2 1 =
      calc_historical_quantities [(1, 10)] [⟨1, "BUY", 6, 0, 5⟩]
        ((5 : ℤ), applyReverse (initQ [(1, 10)]) ⟨1, "BUY", 6, 0, 5⟩).1 1 :=
  C8_sweep_matches_reconstruction [(1, 10)] [⟨1, "BUY", 6, 0, 5⟩] 5 [5]
    (by decide)
    ((5 : ℤ), applyReverse (initQ [(1, 10)]) ⟨1, "BUY", 6, 0, 5⟩)
    (List.mem_singleton_self _)
    (by decide) 1

/-! ## Claim theorems: C10 -/

/-- Dropping USD rows from the store does not change the per-currency
latest-row query for a non-USD currency. -/
theorem latestRow_filter_usd (store : List HRow) (c : String) (hc : c ≠ "USD") :
    latestRow (store.filter (fun r => r.currency ≠ "USD")) c = latestRow store c := by
  unfold latestRow
  suffices h : ∀ acc : Option HRow,
      (store.filter (fun r => r.currency ≠ "USD")).foldl
        (fun acc r =>
          if r.currency = c then
            match acc with
            | none => some r
            | some b => if b.ts < r.ts then some r else some b
          else acc) acc =
      store.foldl
        (fun acc r =>
          if r.currency = c then
            match acc with
            | none => some r
            | some b => if b.ts < r.ts then some r else some b
          else acc) acc from h none
  induction store with
  | nil => intro acc; rfl
  | cons r rest ih =>
    intro acc
    by_cases hr : r.currency = "USD"
    · have hrc : ¬ r.currency = c := fun hh => hc (hh ▸ hr)
      rw [List.filter_cons_of_neg (by simp [hr]), List.foldl_cons, if_neg hrc]
      exact ih acc
    · rw [List.filter_cons_of_pos (by simp [hr]), List.foldl_cons, List.foldl_cons]
      exact ih _

/-- Looking up one of the mapped keys in a map-built association list. -/
theorem lookup_map_pair {β : Type} (l : List ℤ) (g : ℤ → β) (d : ℤ) (hd : d ∈ l) :
    (l.map (fun x => (x, g x))).lookup d = some (g d) := by
  induction l with
  | nil => cases hd
  | cons x rest ih =>
    rcases List.mem_cons.mp hd with rfl | hmem
    · simp [List.lookup]
    · by_cases hx : d = x
      · subst hx; simp [List.lookup]
      · have hbx : (d == x) = false := beq_eq_false_iff_ne.mpr hx
        simp only [List.map_cons, List.lookup, hbx]
        exact ih hmem

/-- C10 counterexample: with a non-empty date list but an **empty currency
list**, `get_historical_rates_range` returns the empty map — the requested
date key `0` carries no `USD = 1.0` entry (nor any entry at all). -/
theorem C10_counterexample_empty_currencies :
    (get_historical_rates_range [] (fun _ _ _ => []) [0] []).lookup 0 = none := rfl

/-- C10 (amended): `get_rates` always returns a map whose `"USD"` entry is
exactly `1.0`, in cache and fresh mode alike, whether or not USD was
requested, and without consulting the store's USD rows (dropping them does
not change the result; the fresh path never resolves USD —
`resolve_ticker "USD"` is `null` and USD is filtered out before
resolution). `get_historical_rates_range` returns `USD = 1.0` under every
requested date key **provided the requested currency list is non-empty**;
with an empty currency list it returns an empty map with no date keys. -/
theorem C10_usd_pivot_entry (store : List HRow)
    (fetchCur : List String → List (String × ℚ))
    (fetchHist : List String → ℤ → ℤ → List FRow)
    (currencies : List String) (dates : List ℤ) (fresh : Bool)
    (hc : currencies ≠ []) (d : ℤ) (hd : d ∈ dates) :
    (get_rates store fetchCur currencies fresh).lookup "USD" = some 1 ∧
    (∃ m, (get_historical_rates_range store fetchHist dates currencies).lookup d
        = some m ∧ m.lookup "USD" = some 1) ∧
    get_rates (store.filter (fun r => r.currency ≠ "USD")) fetchCur currencies fresh =
      get_rates store fetchCur currencies fresh ∧
    resolve_ticker "USD" = none := by
  have hde : dates.isEmpty = false :=
    List.isEmpty_eq_false.mpr (List.ne_nil_of_mem hd)
  have hce : currencies.isEmpty = false := List.isEmpty_eq_false.mpr hc
  refine ⟨?_, ?_, ?_, by decide⟩
  · simp only [get_rates]
    split
    · simp [List.lookup]
    · split
      · rw [fetch_fresh_rates]
        simp only
        split
        · simp [List.lookup]
        · simp [List.lookup]
      · rw [get_rates_from_db]
        simp [List.lookup]
  · simp only [get_historical_rates_range, hde, hce, Bool.false_eq_true, or_self,
      if_false]
    exact ⟨_, lookup_map_pair dates _ d hd, by simp [List.lookup]⟩
  · simp only [get_rates]
    split
    · rfl
    · split
      · rfl
      · rw [get_rates_from_db, get_rates_from_db]
        congr 1
        apply List.map_congr_left
        intro c hcm
        have hcne : c ≠ "USD" := by
          have := (List.mem_filter.mp hcm).2
          simpa using this
        rw [latestRow_filter_usd store c hcne]

/-- C10 witness: one requested currency (`EUR`), one requested date, cache
mode, empty store. -/
theorem C10_usd_pivot_entry_witness :
    (get_rates [] (fun _ => []) ["EUR"] false).lookup "USD" = some 1 ∧
    (∃ m, (get_historical_rates_range [] (fun _ _ _ => []) [3] ["EUR"]).lookup 3
        = some m ∧ m.lookup "USD" = some 1) ∧
    get_rates (([] : List HRow).filter (fun r => r.currency ≠ "USD"))
        (fun _ => []) ["EUR"] false =
      get_rates [] (fun _ => []) ["EUR"] false ∧
    resolve_ticker "USD" = none :=
  C10_usd_pivot_entry [] (fun _ => []) (fun _ _ _ => []) ["EUR"] [3] false
    (by decide) 3 (by decide)

end WealtPulse
